import Mathlib

/-!
Verification development for the mightymap repository: a generic key-value
map facade over interchangeable storage backends.  Go maps are modelled as
association lists (the list order stands for the unspecified iteration
order of a Go map); byte payloads are lists of naturals; the msgpack codec
core is an abstract encoder/decoder parameter, while the control flow around
it (envelope emptiness check, error swallowing) is translated from the
source.  Panics are modelled by an explicit result constructor.
-/

namespace MightyMap

/-! ## Association-list model of a Go map -/

/-- Lookup in an association list; models `value, ok = data[key]`. -/
def mapLoad {K V : Type} [DecidableEq K] : List (K × V) → K → Option V
  | [], _ => none
  | (k1, v) :: rest, k => if k1 = k then some v else mapLoad rest k

/-- Insert-or-overwrite; models `data[key] = value`. -/
def mapPut {K V : Type} [DecidableEq K] : List (K × V) → K → V → List (K × V)
  | [], k, v => [(k, v)]
  | (k1, v1) :: rest, k, v =>
    if k1 = k then (k, v) :: rest else (k1, v1) :: mapPut rest k v

/-- Remove a binding; models `delete(data, key)`. -/
def mapDel {K V : Type} [DecidableEq K] (data : List (K × V)) (k : K) : List (K × V) :=
  data.filter (fun p => p.1 ≠ k)

/-! ## Default in-memory backend (mightyMapDefaultStorage / mightyMapDirectStorage)

`Range` is modelled by the list of entries the visitor is invoked on:
the Go loop `for k, v := range data { if !f(k, v) { break } }` visits
entries until the visitor first returns false (that entry included). -/

/-- Entries visited by the default backend's early-stop `Range` loop. -/
def rangeVisit {K V : Type} (f : K → V → Bool) : List (K × V) → List (K × V)
  | [] => []
  | (k, v) :: rest => if f k v then (k, v) :: rangeVisit f rest else [(k, v)]

/-- In-memory default storage: a Go `map[K]V` behind a mutex. -/
structure DefaultStorage (K V : Type) where
  data : List (K × V)

variable {K V : Type}

/-- `Load`: point lookup. -/
def DefaultStorage.Load [DecidableEq K] (c : DefaultStorage K V) (key : K) : Option V :=
  mapLoad c.data key

/-- `Store`: unconditional upsert. -/
def DefaultStorage.Store [DecidableEq K] (c : DefaultStorage K V) (key : K) (value : V) :
    DefaultStorage K V :=
  ⟨mapPut c.data key value⟩

/-- `Delete(keys...)`: removes each key in turn, absent keys skipped. -/
def DefaultStorage.Delete [DecidableEq K] (c : DefaultStorage K V) (keys : List K) :
    DefaultStorage K V :=
  ⟨keys.foldl (fun d k => mapDel d k) c.data⟩

/-- `Range`: returns the entries the visitor is invoked on. -/
def DefaultStorage.Range (c : DefaultStorage K V) (f : K → V → Bool) : List (K × V) :=
  rangeVisit f c.data

/-- `Len`: number of entries. -/
def DefaultStorage.Len (c : DefaultStorage K V) : Nat :=
  c.data.length

/-- `Clear`: fresh empty map. -/
def DefaultStorage.Clear (_ : DefaultStorage K V) : DefaultStorage K V :=
  ⟨[]⟩

/-- Result triple of `Next() (key K, value V, ok bool)`. -/
structure NextResult (K V : Type) where
  key : K
  value : V
  ok : Bool

/-- `Next`: the Go named returns `key`, `value` start at the zero values
`zk`, `zv` (`*new(K)`); the `Range` closure overwrites them with the first
visited entry and stops; then the source tests `key != *new(K)` and only in
that case sets `ok` and deletes the entry.  Translated verbatim, including
the zero-value comparison. -/
def DefaultStorage.Next [DecidableEq K] (zk : K) (zv : V) (c : DefaultStorage K V) :
    NextResult K V × DefaultStorage K V :=
  let kv : K × V :=
    match c.data with
    | [] => (zk, zv)
    | (k, v) :: _ => (k, v)
  if kv.1 ≠ zk then
    ({ key := kv.1, value := kv.2, ok := true }, c.Delete [kv.1])
  else
    ({ key := kv.1, value := kv.2, ok := false }, c)

/-! ## Swiss backend (mightyMapSwissStorage)

`swiss.Map.Iter` invokes its callback on each entry and stops as soon as
the callback returns true; the backend's `Range` passes the negated
visitor (`return !f(k, v)`). -/

/-- Entries visited by `swiss.Map.Iter` (stop on true). -/
def swissIter {K V : Type} (g : K → V → Bool) : List (K × V) → List (K × V)
  | [] => []
  | (k, v) :: rest => if g k v then [(k, v)] else (k, v) :: swissIter g rest

/-- Swiss-table storage (typed view; the real one holds byte payloads
behind the msgpack adapter, iteration logic is identical). -/
structure SwissStorage (K V : Type) where
  data : List (K × V)

/-- Swiss `Range`: `Iter` with the negated visitor. -/
def SwissStorage.Range (c : SwissStorage K V) (f : K → V → Bool) : List (K × V) :=
  swissIter (fun k v => !(f k v)) c.data

/-! ## Map facade (mightymap.go) over the default backend -/

/-- The user-facing map: one backend plus the overwrite-policy flag. -/
structure Map (K V : Type) where
  storage : DefaultStorage K V
  allowOverwrite : Bool

/-- Facade `Load`: delegates to the backend. -/
def Map.Load [DecidableEq K] (m : Map K V) (key : K) : Option V :=
  m.storage.Load key

/-- Facade `Has`: `Load` discarding the value. -/
def Map.Has [DecidableEq K] (m : Map K V) (key : K) : Bool :=
  (m.storage.Load key).isSome

/-- Facade `Store`: `if _, ok := Load(key); !ok || allowOverwrite { Store }`. -/
def Map.Store [DecidableEq K] (m : Map K V) (key : K) (value : V) : Map K V :=
  if !(m.storage.Load key).isSome || m.allowOverwrite then
    { m with storage := m.storage.Store key value }
  else
    m

/-- Facade `Pop`: `Load`, and only when found, `Delete`; `none` stands for
the Go pair (zero value, false). -/
def Map.Pop [DecidableEq K] (m : Map K V) (key : K) : Option V × Map K V :=
  match m.storage.Load key with
  | none => (none, m)
  | some v => (some v, { m with storage := m.storage.Delete [key] })

/-! ## Byte-oriented storage and the msgpack adapter

A byte backend stores raw payloads (`Bytes`).  The msgpack codec core
(the actual MessagePack marshalling, reflection and the type registry) is
kept abstract as an encoder that may fail and a decoder for non-empty
payloads; the control flow around it — the empty-payload early return in
msgpackDecodeValue, the error swallowing in Load/Store/Range — is
translated from the source. -/

/-- Raw byte payload. -/
abbrev Bytes : Type := List Nat

/-- In-memory byte storage (the byteStorage shape of mightyMapDefaultStorage[K]). -/
structure ByteStorage (K : Type) where
  data : List (K × Bytes)

/-- Byte `Load`. -/
def ByteStorage.Load [DecidableEq K] (c : ByteStorage K) (key : K) : Option Bytes :=
  mapLoad c.data key

/-- Byte `Store`. -/
def ByteStorage.Store [DecidableEq K] (c : ByteStorage K) (key : K) (value : Bytes) :
    ByteStorage K :=
  ⟨mapPut c.data key value⟩

/-- Abstract msgpack codec for values of type V: `enc` is
msgpackEncodeValue (envelope marshalling, may fail on unsupported value
shapes), `decCore` is the decode path of msgpackDecodeValue for non-empty
data (may fail on invalid stored bytes), `zero` is the Go zero value of V. -/
structure Codec (V : Type) where
  enc : V → Option Bytes
  decCore : Bytes → Option V
  zero : V

/-- msgpackDecodeValue: `if len(data) == 0 { return value, nil }` — a
zero-length payload decodes to the zero value with no error; otherwise the
real decode path runs. -/
def msgpackDecodeValue {V : Type} (c : Codec V) (data : Bytes) : Option V :=
  if data.length = 0 then some c.zero else c.decCore data

/-- The msgpack adapter: a byte backend plus the value codec. -/
structure MsgpackAdapter (K V : Type) where
  codec : Codec V
  storage : ByteStorage K

/-- Adapter `Load`: absent key stays absent; a decode error is swallowed —
"If we can't decode, it's as if the key isn't there" — yielding
(zero value, false), here `none`. -/
def MsgpackAdapter.Load [DecidableEq K] (m : MsgpackAdapter K V) (key : K) : Option V :=
  match m.storage.Load key with
  | none => none
  | some data =>
    match msgpackDecodeValue m.codec data with
    | none => none
    | some v => some v

/-- Adapter `Store`: "If we can't encode, we don't store anything" — an
encode failure returns without touching the byte backend and without any
error to the caller. -/
def MsgpackAdapter.Store [DecidableEq K] (m : MsgpackAdapter K V) (key : K) (value : V) :
    MsgpackAdapter K V :=
  match m.codec.enc value with
  | none => m
  | some encoded => { m with storage := m.storage.Store key encoded }

/-- Adapter `Range` over the byte backend's early-stop loop: an entry whose
payload fails to decode is skipped (the wrapped visitor returns true, i.e.
continue); a decoded entry is passed to `f`, whose result controls the
early stop.  Returns the typed entries `f` is invoked on. -/
def adapterRangeVisit {K V : Type} (c : Codec V) (f : K → V → Bool) :
    List (K × Bytes) → List (K × V)
  | [] => []
  | (k, data) :: rest =>
    match msgpackDecodeValue c data with
    | none => adapterRangeVisit c f rest
    | some v => if f k v then (k, v) :: adapterRangeVisit c f rest else [(k, v)]

/-- Adapter `Range`: the typed entries the visitor is invoked on. -/
def MsgpackAdapter.Range (m : MsgpackAdapter K V) (f : K → V → Bool) : List (K × V) :=
  adapterRangeVisit m.codec f m.storage.data

/-! ## BadgerDB byte backend (mightyMapBadgerStorage)

BadgerDB rows are keyed by the msgpack marshalling of the typed key; since
that marshalling is injective, the database content is modelled directly as
an association list over K.  The struct carries the atomic length counter
`len` and the `initLenCall` flag exactly as in the source.  A Go panic is
modelled by the `panic` constructor of `OpResult`. -/

/-- Outcome of an operation that may panic (crash the caller). -/
inductive OpResult (α : Type) where
  | ok : α → OpResult α
  | panic : OpResult α
  deriving DecidableEq

/-- True when the operation panicked. -/
def OpResult.isPanic {α : Type} : OpResult α → Bool
  | .ok _ => false
  | .panic => true

/-- BadgerDB-backed byte storage with its cached entry counter. -/
structure BadgerStorage (K : Type) where
  db : List (K × Bytes)
  len : Int
  initLenCall : Bool

/-- Badger `Store`: writes the row, then `c.len.Add(1)` — the counter is
incremented unconditionally, also when the key was already present. -/
def BadgerStorage.Store [DecidableEq K] (c : BadgerStorage K) (key : K) (value : Bytes) :
    BadgerStorage K :=
  { c with db := mapPut c.db key value, len := c.len + 1 }

/-- Badger `Load`: transactional point read; found flag via Option. -/
def BadgerStorage.Load [DecidableEq K] (c : BadgerStorage K) (key : K) : Option Bytes :=
  mapLoad c.db key

/-- Badger `Delete` of a single key: skips absent keys (checked via Load)
and decrements the counter only when a row was actually removed. -/
def BadgerStorage.DeleteOne [DecidableEq K] (c : BadgerStorage K) (key : K) :
    BadgerStorage K :=
  match c.Load key with
  | none => c
  | some _ => { c with db := mapDel c.db key, len := c.len - 1 }

/-- Badger `Delete(keys...)`: per-key loop. -/
def BadgerStorage.Delete [DecidableEq K] (c : BadgerStorage K) (keys : List K) :
    BadgerStorage K :=
  keys.foldl (fun s k => s.DeleteOne k) c

/-- Badger `Len`: on the first call, scan-and-count the whole database and
store the result in the counter; afterwards return the cached counter. -/
def BadgerStorage.Len (c : BadgerStorage K) : Int × BadgerStorage K :=
  if !c.initLenCall then
    let cnt : Int := c.db.length
    (cnt, { c with initLenCall := true, len := cnt })
  else
    (c.len, c)

/-- Badger `Clear`: `DropAll` then `c.len.Store(0)`. -/
def BadgerStorage.Clear (c : BadgerStorage K) : BadgerStorage K :=
  { db := [], len := 0, initLenCall := c.initLenCall }

/-- Number of distinct keys currently resolvable by Load. -/
def BadgerStorage.loadableCount (c : BadgerStorage K) : Nat :=
  c.db.length

/-! ### Badger and Redis operations under a per-call engine failure

`fail = true` means the underlying engine (disk, network) reports an error
on this call.  The translation records what the source then does: Badger's
Load swallows the error into (nil, false); every other operation calls
panic(err). -/

/-- Badger `Load` when the engine may fail: `if err != nil { return nil,
false }` — the failure is swallowed into the not-found result. -/
def BadgerStorage.LoadF [DecidableEq K] (c : BadgerStorage K) (fail : Bool) (key : K) :
    OpResult (Option Bytes) :=
  if fail then .ok none else .ok (c.Load key)

/-- Badger `Store` when the engine may fail: `log.Printf(...); panic(err)`. -/
def BadgerStorage.StoreF [DecidableEq K] (c : BadgerStorage K) (fail : Bool) (key : K)
    (value : Bytes) : OpResult (BadgerStorage K) :=
  if fail then .panic else .ok (c.Store key value)

/-- Badger single-key `Delete` when the engine may fail: `panic(err)`. -/
def BadgerStorage.DeleteF [DecidableEq K] (c : BadgerStorage K) (fail : Bool) (key : K) :
    OpResult (BadgerStorage K) :=
  if fail then .panic else .ok (c.DeleteOne key)

/-- Badger `Clear` when `DropAll` may fail: `panic(err)`. -/
def BadgerStorage.ClearF (c : BadgerStorage K) (fail : Bool) :
    OpResult (BadgerStorage K) :=
  if fail then .panic else .ok c.Clear

/-! ## Redis byte backend (mightyMapRedisStorage)

The whole Redis keyspace is one string-keyed byte store; the backend
namespaces its rows as `opts.prefix + string(msgpack.Marshal(key))`.
Strings are lists of characters; the msgpack key marshalling is an
abstract injective encoding with its decoder. `Range`, `Keys`, `Len`,
`Clear` and `Next` all enumerate via `scan(prefix + "*")`, a cursor loop
that accumulates every key matching the glob pattern. -/

/-- A raw Redis key (a Go string). -/
abbrev RKey : Type := List Char

/-- Redis glob matching: star matches any run of characters, question mark
any single character, anything else itself.  Bracket character classes and
backslash escapes are NOT modelled (their pattern characters are treated
as literals here), so this function is faithful to Redis SCAN MATCH only
for patterns free of brackets and backslashes; the Clear/Len theorem
therefore hypothesises a namespace containing none of the five
metacharacters, keeping every admitted pattern inside the faithful
fragment. -/
def globMatch : List Char → List Char → Bool
  | [], s => s.isEmpty
  | p :: ps, [] => p == '*' && globMatch ps []
  | p :: ps, c :: s =>
    if p = '*' then globMatch ps (c :: s) || globMatch (p :: ps) s
    else if p = '?' then globMatch ps s
    else (p == c) && globMatch ps s

/-- Go strings.SplitN(s, sep, 2): with an empty separator Go explodes the
string into characters, so two parts exist exactly when the string has at
least one character and the second part carries the remainder (SplitN
of "aaa" on "" is ["a", "aa"]; of "" on "" it is []); with a nonempty
separator the split is around its first occurrence.  `none` models every
result with fewer than two parts (for the empty string, SplitN yields []
on an empty separator and [""] on a nonempty one — never two parts). -/
def splitFirst (sep : List Char) : List Char → Option (List Char × List Char)
  | [] => none
  | c :: s1 =>
    if sep.isEmpty then some ([c], s1)
    else if sep.isPrefixOf (c :: s1) then some ([], (c :: s1).drop sep.length)
    else
      match splitFirst sep s1 with
      | none => none
      | some (pre, post) => some (c :: pre, post)

/-- Abstract msgpack marshalling of typed keys: `enc` is
string(msgpack.Marshal(k)), `dec` is msgpack.Unmarshal into K. -/
structure RedisKeyCodec (K : Type) where
  enc : K → List Char
  dec : List Char → Option K

/-- Redis-backed byte storage: the database keyspace plus the configured
key namespace (the `opts.prefix` string). -/
structure RedisStorage (K : Type) where
  db : List (RKey × Bytes)
  pfx : List Char

/-- `scan(keyPattern)`: the cursor loop accumulates every key of the
database matching the pattern (pages are concatenated until the cursor
returns to zero; only key names are returned). -/
def RedisStorage.scan (s : RedisStorage K) (pattern : List Char) : List RKey :=
  (s.db.map Prod.fst).filter (fun k => globMatch pattern k)

/-- Redis `Delete(keys...)`: one `DEL prefix+marshal(key)` per key. -/
def RedisStorage.Delete (kc : RedisKeyCodec K) (s : RedisStorage K) (keys : List K) :
    RedisStorage K :=
  { s with db := keys.foldl (fun kv k => mapDel kv (s.pfx ++ kc.enc k)) s.db }

/-- The per-key loop of Redis `Clear`: each scanned key is split on the
namespace (a split that does not produce two parts is skipped) and its
remainder unmarshalled into a typed key; an unmarshal error panics. -/
def redisCollectKeys (kc : RedisKeyCodec K) (pfx : List Char) :
    List RKey → OpResult (List K)
  | [] => .ok []
  | key :: rest =>
    match splitFirst pfx key with
    | none => redisCollectKeys kc pfx rest
    | some (_, remainder) =>
      match kc.dec remainder with
      | none => .panic
      | some k =>
        match redisCollectKeys kc pfx rest with
        | .panic => .panic
        | .ok ks => .ok (k :: ks)

/-- Redis `Clear`: scan `prefix+"*"`, recover the typed keys, then delete
them in one batch (deleting an empty batch is skipped in the source, which
coincides with the no-op fold here). -/
def RedisStorage.Clear (kc : RedisKeyCodec K) (s : RedisStorage K) :
    OpResult (RedisStorage K) :=
  match redisCollectKeys kc s.pfx (s.scan (s.pfx ++ ['*'])) with
  | .panic => .panic
  | .ok kkeys => .ok (s.Delete kc kkeys)

/-- Redis `Len`: the number of keys returned by `scan(prefix+"*")`. -/
def RedisStorage.Len (s : RedisStorage K) : Nat :=
  (s.scan (s.pfx ++ ['*'])).length

/-- Redis `Load` when the network call may fail: a missing key is the
dedicated not-found reply and yields (nil, false); any other error
panics. -/
def RedisStorage.LoadF (kc : RedisKeyCodec K) (s : RedisStorage K) (fail : Bool) (key : K) :
    OpResult (Option Bytes) :=
  if fail then .panic else .ok (mapLoad s.db (s.pfx ++ kc.enc key))

/-- Redis `Store` when the network call may fail: `panic(err)`. -/
def RedisStorage.StoreF (kc : RedisKeyCodec K) (s : RedisStorage K) (fail : Bool) (key : K)
    (value : Bytes) : OpResult (RedisStorage K) :=
  if fail then .panic
  else .ok { s with db := mapPut s.db (s.pfx ++ kc.enc key) value }

/-! ## Concrete instances used by witnesses -/

/-- A value codec whose encoder and decode core always fail; its zero is 0. -/
def noneCodec : Codec Nat :=
  { enc := fun _ => none, decCore := fun _ => none, zero := 0 }

/-- An injective key marshalling for natural keys with a total decoder. -/
def natKeyCodec : RedisKeyCodec Nat :=
  { enc := fun n => List.replicate n 'a', dec := fun s => some s.length }

/-- Redis state with one namespaced row and one foreign row. -/
def redisSample : RedisStorage Nat :=
  { db := [(['m', '_', 'a'], [1]), (['x'], [2])], pfx := ['m', '_'] }

/-! ## Lemmas about the association-list operations -/

theorem mapLoad_mapPut_self [DecidableEq K] (d : List (K × V)) (k : K) (v : V) :
    mapLoad (mapPut d k v) k = some v := by
  induction d with
  | nil => simp [mapPut, mapLoad]
  | cons p rest ih =>
    obtain ⟨k1, v1⟩ := p
    by_cases h : k1 = k
    · simp [mapPut, h, mapLoad]
    · simp [mapPut, h, mapLoad, ih]

theorem mapLoad_mapPut_ne [DecidableEq K] (d : List (K × V)) (k k1 : K) (v : V)
    (h : k1 ≠ k) : mapLoad (mapPut d k v) k1 = mapLoad d k1 := by
  have hk : ¬ k = k1 := fun hkk => h hkk.symm
  induction d with
  | nil => simp [mapPut, mapLoad, hk]
  | cons p rest ih =>
    obtain ⟨k2, v2⟩ := p
    by_cases h2 : k2 = k
    · subst h2
      simp [mapPut, mapLoad, hk]
    · simp [mapPut, h2, mapLoad, ih]

theorem mapLoad_mapDel_self [DecidableEq K] (d : List (K × V)) (k : K) :
    mapLoad (mapDel d k) k = none := by
  induction d with
  | nil => simp [mapDel, mapLoad]
  | cons p rest ih =>
    obtain ⟨k1, v1⟩ := p
    by_cases h : k1 = k
    · simpa [mapDel, h] using ih
    · simpa [mapDel, mapLoad, h] using ih

/-! ## Claim C1 -/

/-- C1: the claim says repeated Next() calls on a map with N entries return
exactly N distinct keys before reporting found=false, for every backend,
even when a stored key equals the key type's zero value, absence being
signalled by the explicit boolean and never by a zero-value comparison.
The in-memory backends violate this: Next tests `key != *new(K)`, so on the
default backend holding the single entry (0, 42) — one entry, key equal to
Nat's zero value — Next reports found=false, returns zero key and the
stored value, and leaves the entry in place: zero keys are drained out of
N = 1. -/
theorem C1_next_zero_key_failing :
    DefaultStorage.Len (K := Nat) (V := Nat) ⟨[(0, 42)]⟩ = 1 ∧
    (DefaultStorage.Next 0 0 (⟨[(0, 42)]⟩ : DefaultStorage Nat Nat)).1.ok = false ∧
    (DefaultStorage.Next 0 0 (⟨[(0, 42)]⟩ : DefaultStorage Nat Nat)).2.Len = 1 := by
  refine ⟨rfl, ?_, ?_⟩ <;> simp [DefaultStorage.Next, DefaultStorage.Len]

/-! ## Claim C2 -/

/-- C2: the claim says Len() always equals the number of distinct keys
resolvable by Load, for every backend and every Store/Delete/Clear
sequence including overwrites.  The Badger backend violates this: Store
increments the cached counter unconditionally, also when it overwrites an
existing key.  After Store(1, b1); Len; Store(1, b2) the cached counter
reports 2 while exactly one distinct key is loadable. -/
theorem C2_badger_len_overwrite_failing :
    ((((⟨[], 0, false⟩ : BadgerStorage Nat).Store 1 [7]).Len.2.Store 1 [8]).Len.1 = 2) ∧
    ((((⟨[], 0, false⟩ : BadgerStorage Nat).Store 1 [7]).Len.2.Store 1 [8]).loadableCount = 1) ∧
    (((((⟨[], 0, false⟩ : BadgerStorage Nat).Store 1 [7]).Len.2.Store 1 [8]).Load 1).isSome
      = true) := by
  refine ⟨?_, rfl, rfl⟩
  simp [BadgerStorage.Store, BadgerStorage.Len, mapPut]

/-! ## Claim C3 -/

/-- C3 counterexample: the claim says a per-operation engine failure on a
steady-state data operation of the byte backends returns the
not-found/empty result and never crashes the caller.  At the concrete
input below, a Badger Store whose engine write fails panics (crashes)
instead, as does a failing Redis Store. -/
theorem C3_per_op_failure_counterexample :
    ((⟨[], 0, false⟩ : BadgerStorage Nat).StoreF true 1 [7]).isPanic = true ∧
    (RedisStorage.StoreF natKeyCodec redisSample true 1 [7]).isPanic = true := by
  constructor <;> rfl

/-- C3 amended: only Badger's Load converts a per-operation engine failure
into the not-found result without crashing; a failing Badger Store, Delete
or Clear, and a failing Redis Load or Store, panic (crash the caller)
rather than returning the empty result; only Close (and construction)
surface explicit errors. -/
theorem C3_failure_behavior (c : BadgerStorage Nat) (r : RedisStorage Nat) (k : Nat)
    (v : Bytes) :
    c.LoadF true k = .ok none ∧
    (c.StoreF true k v).isPanic = true ∧
    (c.DeleteF true k).isPanic = true ∧
    (c.ClearF true).isPanic = true ∧
    (RedisStorage.LoadF natKeyCodec r true k).isPanic = true ∧
    (RedisStorage.StoreF natKeyCodec r true k v).isPanic = true := by
  refine ⟨rfl, rfl, rfl, rfl, rfl, rfl⟩

/-! ## Claim C4 -/

/-- C4: on a facade map whose key k starts absent, with allowOverwrite
false the sequence Store(k, v1); Store(k, v2) leaves Load(k) = v1, and with
allowOverwrite true it leaves Load(k) = v2; moreover the facade forwards a
Store to the backend only when the key is absent or the policy allows
overwriting. -/
theorem C4_overwrite_policy [DecidableEq K] (s : DefaultStorage K V) (k : K) (v1 v2 : V)
    (habs : s.Load k = none) :
    (((Map.mk s false).Store k v1).Store k v2).Load k = some v1 ∧
    (((Map.mk s true).Store k v1).Store k v2).Load k = some v2 ∧
    (∀ (m : Map K V) (v : V),
      (m.storage.Load k).isSome = true → m.allowOverwrite = false → m.Store k v = m) := by
  have habs2 : mapLoad s.data k = none := habs
  refine ⟨?_, ?_, ?_⟩
  · simp [Map.Store, Map.Load, DefaultStorage.Load, DefaultStorage.Store, habs2,
      mapLoad_mapPut_self]
  · simp [Map.Store, Map.Load, DefaultStorage.Load, DefaultStorage.Store, habs2,
      mapLoad_mapPut_self]
  · intro m v h1 h2
    simp [Map.Store, h1, h2]

/-- C4 witness at a concrete input. -/
theorem C4_overwrite_policy_witness :
    (((Map.mk (⟨[]⟩ : DefaultStorage Nat Nat) false).Store 1 10).Store 1 20).Load 1
      = some 10 ∧
    (((Map.mk (⟨[]⟩ : DefaultStorage Nat Nat) true).Store 1 10).Store 1 20).Load 1
      = some 20 :=
  ⟨(C4_overwrite_policy ⟨[]⟩ 1 10 20 rfl).1, (C4_overwrite_policy ⟨[]⟩ 1 10 20 rfl).2.1⟩

/-! ## Claim C5 -/

/-- C5: when the adapter's encoder fails on a value, the Store is silently
dropped: the adapter (whose Store returns nothing, so no error can reach
the caller) is left completely unchanged — in particular the wrapped byte
backend holds exactly what it held before, with no entry for the key
created or modified. -/
theorem C5_encode_failure_drops_write [DecidableEq K] (m : MsgpackAdapter K V) (k : K)
    (v : V) (henc : m.codec.enc v = none) :
    m.Store k v = m ∧ (m.Store k v).storage.Load k = m.storage.Load k := by
  have h : m.Store k v = m := by
    simp [MsgpackAdapter.Store, henc]
  exact ⟨h, by rw [h]⟩

/-- C5 witness at a concrete input: a codec that cannot encode the value 5. -/
theorem C5_encode_failure_drops_write_witness :
    MsgpackAdapter.Store ⟨noneCodec, ⟨[(2, [9])]⟩⟩ 1 5 = ⟨noneCodec, ⟨[(2, [9])]⟩⟩ :=
  (C5_encode_failure_drops_write ⟨noneCodec, ⟨[(2, [9])]⟩⟩ 1 5 rfl).1

/-! ## Claim C6 -/

/-- C6: when the bytes stored under a key fail to decode, the adapter's
Load reports (zero value, false), i.e. the key behaves as absent, and the
adapter's Range skips that entry and continues with the remaining entries;
neither operation can propagate a decode error (their signatures carry no
error channel). -/
theorem C6_decode_failure_absent_skipped [DecidableEq K] (m : MsgpackAdapter K V)
    (k : K) (data : Bytes) (hload : m.storage.Load k = some data)
    (hne : data.length ≠ 0) (hdec : m.codec.decCore data = none) :
    m.Load k = none ∧
    (∀ (f : K → V → Bool) (rest : List (K × Bytes)),
      adapterRangeVisit m.codec f ((k, data) :: rest) = adapterRangeVisit m.codec f rest) := by
  have hdv : msgpackDecodeValue m.codec data = none := by
    simp [msgpackDecodeValue, hne, hdec]
  constructor
  · simp [MsgpackAdapter.Load, hload, hdv]
  · intro f rest
    simp [adapterRangeVisit, hdv]

/-- C6 witness at a concrete input: the payload [9] under key 1 cannot be
decoded; Load treats 1 as absent and Range visits only the decodable
remainder (here: nothing, the remainder payload [8] also fails to
decode, so the skip equation collapses both lists). -/
theorem C6_decode_failure_absent_skipped_witness :
    MsgpackAdapter.Load (⟨noneCodec, ⟨[(1, [9])]⟩⟩ : MsgpackAdapter Nat Nat) 1 = none ∧
    adapterRangeVisit noneCodec (fun _ _ => true) [((1 : Nat), ([9] : Bytes)), (2, [8])] =
      adapterRangeVisit noneCodec (fun _ _ => true) [((2 : Nat), ([8] : Bytes))] :=
  ⟨(C6_decode_failure_absent_skipped ⟨noneCodec, ⟨[(1, [9])]⟩⟩ 1 [9] (by rfl) (by decide)
      (by rfl)).1,
   (C6_decode_failure_absent_skipped ⟨noneCodec, ⟨[(1, [9])]⟩⟩ 1 [9] (by rfl) (by decide)
      (by rfl)).2 (fun _ _ => true) [(2, [8])]⟩

/-! ## Claim C7 -/

/-- C7: facade Pop on a present key returns its value with found=true and
afterwards Has(k) is false; Pop on an absent key returns (zero value,
false) — modelled as none — and leaves the whole map unchanged. -/
theorem C7_pop_semantics [DecidableEq K] (m : Map K V) (k : K) :
    (∀ v, m.Load k = some v →
      (m.Pop k).1 = some v ∧ ((m.Pop k).2.Has k) = false) ∧
    (m.Load k = none → m.Pop k = (none, m)) := by
  constructor
  · intro v hv
    have hv2 : m.storage.Load k = some v := hv
    have hv3 : mapLoad m.storage.data k = some v := hv2
    constructor
    · simp [Map.Pop, hv2]
    · simp [Map.Pop, hv2, hv3, Map.Has, DefaultStorage.Delete, DefaultStorage.Load,
        mapLoad_mapDel_self]
  · intro hv
    have hv2 : m.storage.Load k = none := hv
    simp [Map.Pop, hv2]

/-- C7 witness at a concrete input: both the present and the absent case. -/
theorem C7_pop_semantics_witness :
    ((Map.mk (⟨[(1, 42)]⟩ : DefaultStorage Nat Nat) true).Pop 1).1 = some 42 ∧
    (((Map.mk (⟨[(1, 42)]⟩ : DefaultStorage Nat Nat) true).Pop 1).2.Has 1) = false ∧
    (Map.mk (⟨[(1, 42)]⟩ : DefaultStorage Nat Nat) true).Pop 2 =
      (none, Map.mk ⟨[(1, 42)]⟩ true) :=
  ⟨((C7_pop_semantics (Map.mk ⟨[(1, 42)]⟩ true) 1).1 42 (by rfl)).1,
   ((C7_pop_semantics (Map.mk ⟨[(1, 42)]⟩ true) 1).1 42 (by rfl)).2,
   (C7_pop_semantics (Map.mk ⟨[(1, 42)]⟩ true) 2).2 (by rfl)⟩

/-! ## Claim C8 -/

theorem rangeVisit_const_false {K V : Type} (l : List (K × V)) (h : l ≠ []) :
    (rangeVisit (fun _ _ => false) l).length = 1 := by
  cases l with
  | nil => exact absurd rfl h
  | cons p rest => simp [rangeVisit]

theorem rangeVisit_const_true {K V : Type} (l : List (K × V)) :
    rangeVisit (fun _ _ => true) l = l := by
  induction l with
  | nil => rfl
  | cons p rest ih =>
    obtain ⟨k, v⟩ := p
    simp [rangeVisit, ih]

theorem swissIter_const_true {K V : Type} (l : List (K × V)) (h : l ≠ []) :
    (swissIter (fun _ _ => true) l).length = 1 := by
  cases l with
  | nil => exact absurd rfl h
  | cons p rest => simp [swissIter]

theorem swissIter_const_false {K V : Type} (l : List (K × V)) :
    swissIter (fun _ _ => false) l = l := by
  induction l with
  | nil => rfl
  | cons p rest ih =>
    obtain ⟨k, v⟩ := p
    simp [swissIter, ih]

theorem adapterRangeVisit_const_false {K V : Type} (c : Codec V) (l : List (K × Bytes))
    (h : l ≠ []) (hd : ∀ p ∈ l, (msgpackDecodeValue c p.2).isSome = true) :
    (adapterRangeVisit c (fun _ _ => false) l).length = 1 := by
  cases l with
  | nil => exact absurd rfl h
  | cons p rest =>
    obtain ⟨k, data⟩ := p
    obtain ⟨v, hv⟩ := Option.isSome_iff_exists.mp (hd (k, data) (by simp))
    simp [adapterRangeVisit, hv]

theorem adapterRangeVisit_const_true {K V : Type} (c : Codec V) (l : List (K × Bytes))
    (hd : ∀ p ∈ l, (msgpackDecodeValue c p.2).isSome = true) :
    (adapterRangeVisit c (fun _ _ => true) l).length = l.length := by
  induction l with
  | nil => rfl
  | cons p rest ih =>
    obtain ⟨k, data⟩ := p
    obtain ⟨v, hv⟩ := Option.isSome_iff_exists.mp (hd (k, data) (by simp))
    have := ih (fun q hq => hd q (by simp [hq]))
    simp [adapterRangeVisit, hv, this]

/-- C8: on every backend, a visitor returning false on its first invocation
makes Range visit exactly one entry of a non-empty map, and an always-true
visitor is invoked once per entry: shown for the default backend, the
swiss backend (whose Iter stops when the negated visitor returns true) and
the msgpack adapter over a byte backend whose payloads all decode. -/
theorem C8_range_early_stop [DecidableEq K] (s : DefaultStorage K V) (w : SwissStorage K V)
    (m : MsgpackAdapter K V) (hs : s.data ≠ []) (hw : w.data ≠ [])
    (hm : m.storage.data ≠ [])
    (hdec : ∀ p ∈ m.storage.data, (msgpackDecodeValue m.codec p.2).isSome = true) :
    (s.Range (fun _ _ => false)).length = 1 ∧
    s.Range (fun _ _ => true) = s.data ∧
    (w.Range (fun _ _ => false)).length = 1 ∧
    w.Range (fun _ _ => true) = w.data ∧
    (m.Range (fun _ _ => false)).length = 1 ∧
    (m.Range (fun _ _ => true)).length = m.storage.data.length := by
  refine ⟨rangeVisit_const_false s.data hs, rangeVisit_const_true s.data, ?_, ?_,
    adapterRangeVisit_const_false m.codec m.storage.data hm hdec,
    adapterRangeVisit_const_true m.codec m.storage.data hdec⟩
  · show (swissIter (fun k v => !(false : Bool)) w.data).length = 1
    simpa using swissIter_const_true w.data hw
  · show swissIter (fun k v => !(true : Bool)) w.data = w.data
    simpa using swissIter_const_false w.data

/-- C8 witness at concrete inputs: two-entry maps with decodable payloads
(the identity-style codec decodes the non-empty payload [7] to 7). -/
theorem C8_range_early_stop_witness :
    ((⟨[(1, 10), (2, 20)]⟩ : DefaultStorage Nat Nat).Range (fun _ _ => false)).length = 1 ∧
    (⟨[(1, 10), (2, 20)]⟩ : DefaultStorage Nat Nat).Range (fun _ _ => true)
      = [(1, 10), (2, 20)] ∧
    ((⟨[(1, 10), (2, 20)]⟩ : SwissStorage Nat Nat).Range (fun _ _ => false)).length = 1 ∧
    (⟨[(1, 10), (2, 20)]⟩ : SwissStorage Nat Nat).Range (fun _ _ => true)
      = [(1, 10), (2, 20)] ∧
    (MsgpackAdapter.Range
      (⟨⟨fun v => some [v], fun b => some b.length, 0⟩, ⟨[(1, [7]), (2, [8])]⟩⟩ :
        MsgpackAdapter Nat Nat) (fun _ _ => false)).length = 1 ∧
    (MsgpackAdapter.Range
      (⟨⟨fun v => some [v], fun b => some b.length, 0⟩, ⟨[(1, [7]), (2, [8])]⟩⟩ :
        MsgpackAdapter Nat Nat) (fun _ _ => true)).length = 2 :=
  C8_range_early_stop ⟨[(1, 10), (2, 20)]⟩ ⟨[(1, 10), (2, 20)]⟩
    ⟨⟨fun v => some [v], fun b => some b.length, 0⟩, ⟨[(1, [7]), (2, [8])]⟩⟩
    (by decide) (by decide) (by decide) (by decide)

/-! ## Claim C9 -/

/-- C9: a zero-length payload stored under a key decodes to the zero value
of V with no error, so the adapter's Load reports (zero value of V, true)
rather than treating the key as absent or as a decode failure. -/
theorem C9_empty_payload_loads_zero [DecidableEq K] (m : MsgpackAdapter K V) (k : K)
    (h : m.storage.Load k = some []) :
    m.Load k = some m.codec.zero := by
  simp [MsgpackAdapter.Load, h, msgpackDecodeValue]

/-- C9 witness at a concrete input: key 1 holds the empty payload; Load
returns the codec's zero value with found=true (even though this codec's
decode core rejects everything). -/
theorem C9_empty_payload_loads_zero_witness :
    MsgpackAdapter.Load (⟨noneCodec, ⟨[(1, [])]⟩⟩ : MsgpackAdapter Nat Nat) 1 = some 0 :=
  C9_empty_payload_loads_zero ⟨noneCodec, ⟨[(1, [])]⟩⟩ 1 rfl

/-! ## Claim C10 -/

theorem isPrefixOf_append_self (a b : List Char) : a.isPrefixOf (a ++ b) = true := by
  induction a with
  | nil => simp [List.isPrefixOf]
  | cons c s ih => simp [List.isPrefixOf, ih]

theorem globMatch_star_all (s : List Char) : globMatch ['*'] s = true := by
  induction s with
  | nil => simp [globMatch]
  | cons c s ih => simp [globMatch, ih]

theorem globMatch_literal_star (p : List Char) (hp : ∀ c ∈ p, c ≠ '*' ∧ c ≠ '?') :
    ∀ s, globMatch (p ++ ['*']) s = p.isPrefixOf s := by
  induction p with
  | nil =>
    intro s
    simp [List.isPrefixOf, globMatch_star_all s]
  | cons a p ih =>
    intro s
    have ha := hp a (List.mem_cons_self a p)
    have ihp : ∀ c ∈ p, c ≠ '*' ∧ c ≠ '?' := fun c hc => hp c (List.mem_cons_of_mem a hc)
    cases s with
    | nil => simp [globMatch, List.isPrefixOf, ha.1]
    | cons c s => simp [globMatch, List.isPrefixOf, ha.1, ha.2, ih ihp s]

theorem splitFirst_of_isPrefixOf (sep s : List Char) (hne : sep ≠ [])
    (h : sep.isPrefixOf s = true) :
    splitFirst sep s = some ([], s.drop sep.length) := by
  have hempty : sep.isEmpty = false := by
    cases sep with
    | nil => exact absurd rfl hne
    | cons a t => rfl
  cases s with
  | nil =>
    cases sep with
    | nil => exact absurd rfl hne
    | cons a t => simp [List.isPrefixOf] at h
  | cons c s1 => simp [splitFirst, hempty, h]

theorem splitFirst_append_self (sep rest : List Char) (hne : sep ≠ []) :
    splitFirst sep (sep ++ rest) = some ([], rest) := by
  rw [splitFirst_of_isPrefixOf sep _ hne (isPrefixOf_append_self sep rest), List.drop_left]

theorem foldl_mapDel_image {K A V : Type} [DecidableEq A] (g : K → A) (ks : List K)
    (kv : List (A × V)) :
    ks.foldl (fun d k => mapDel d (g k)) kv
      = kv.filter (fun p => decide (p.1 ∉ ks.map g)) := by
  induction ks generalizing kv with
  | nil => simp
  | cons k ks ih =>
    simp only [List.foldl_cons, List.map_cons]
    rw [ih, mapDel, List.filter_filter]
    congr 1
    funext p
    by_cases h1 : p.1 = g k <;> by_cases h2 : p.1 ∈ ks.map g <;> simp [h1, h2]

theorem redisCollectKeys_wellformed {K : Type} (kc : RedisKeyCodec K) (pfx : List Char)
    (hne : pfx ≠ []) (keys : List RKey)
    (h : ∀ key ∈ keys, ∃ k, key = pfx ++ kc.enc k ∧ kc.dec (kc.enc k) = some k) :
    ∃ ks, redisCollectKeys kc pfx keys = .ok ks ∧
      ks.map (fun k => pfx ++ kc.enc k) = keys := by
  induction keys with
  | nil => exact ⟨[], rfl, rfl⟩
  | cons key rest ih =>
    obtain ⟨k, hk, hdk⟩ := h key (List.mem_cons_self key rest)
    obtain ⟨ks, hks, hmap⟩ := ih (fun key2 h2 => h key2 (List.mem_cons_of_mem key h2))
    subst hk
    refine ⟨k :: ks, ?_, by simp [hmap]⟩
    simp [redisCollectKeys, splitFirst_append_self pfx _ hne, hdk, hks]

/-- C10: when the configured namespace string is nonempty and contains
none of the glob metacharacters (star, question mark, brackets,
backslash — so the scan pattern lies in the fragment of Redis SCAN MATCH
the model is faithful to), every namespaced key in the database is a
marshalled typed key, and unmarshalling inverts marshalling, the Redis
backend's Clear succeeds and removes exactly the database keys that start
with the namespace, leaving every other key untouched; Len counts exactly
the namespaced keys. -/
theorem C10_redis_clear_scoped {K : Type} [DecidableEq K] (kc : RedisKeyCodec K)
    (s : RedisStorage K)
    (hpfx : s.pfx ≠ [])
    (hmeta : ∀ c ∈ s.pfx, c ∉ (['*', '?', '[', ']', '\\'] : List Char))
    (hwf : ∀ p ∈ s.db, s.pfx.isPrefixOf p.1 = true → ∃ k, p.1 = s.pfx ++ kc.enc k)
    (hrt : ∀ k, kc.dec (kc.enc k) = some k) :
    (∃ s1, s.Clear kc = .ok s1 ∧
      s1.db = s.db.filter (fun p => !(s.pfx.isPrefixOf p.1)) ∧ s1.pfx = s.pfx) ∧
    s.Len = (s.db.filter (fun p => s.pfx.isPrefixOf p.1)).length := by
  have hmeta2 : ∀ c ∈ s.pfx, c ≠ '*' ∧ c ≠ '?' := by
    intro c hc
    have h := hmeta c hc
    constructor
    · intro hcs
      exact h (by simp [hcs])
    · intro hcq
      exact h (by simp [hcq])
  have hscan : s.scan (s.pfx ++ ['*'])
      = (s.db.map Prod.fst).filter (fun k => s.pfx.isPrefixOf k) := by
    unfold RedisStorage.scan
    congr 1
    funext k
    exact globMatch_literal_star s.pfx hmeta2 k
  have hkeys : ∀ key ∈ s.scan (s.pfx ++ ['*']),
      ∃ k, key = s.pfx ++ kc.enc k ∧ kc.dec (kc.enc k) = some k := by
    intro key hkey
    rw [hscan] at hkey
    obtain ⟨hmem, hpre⟩ := List.mem_filter.mp hkey
    obtain ⟨p, hp, hpk⟩ := List.mem_map.mp hmem
    obtain ⟨k, hk⟩ := hwf p hp (by rw [hpk]; exact hpre)
    exact ⟨k, by rw [← hpk, hk], hrt k⟩
  obtain ⟨ks, hks, hmap⟩ := redisCollectKeys_wellformed kc s.pfx hpfx _ hkeys
  constructor
  · refine ⟨s.Delete kc ks, ?_, ?_, rfl⟩
    · unfold RedisStorage.Clear
      rw [hks]
    · show ks.foldl (fun kv k => mapDel kv (s.pfx ++ kc.enc k)) s.db = _
      rw [foldl_mapDel_image (fun k => s.pfx ++ kc.enc k) ks s.db, hmap]
      apply List.filter_congr
      intro p hp
      rw [hscan]
      by_cases hpre : s.pfx.isPrefixOf p.1 = true
      · have hin : p.1 ∈ (s.db.map Prod.fst).filter (fun k => s.pfx.isPrefixOf k) :=
          List.mem_filter.mpr ⟨List.mem_map_of_mem Prod.fst hp, hpre⟩
        simp [hin, hpre]
      · have hout : p.1 ∉ (s.db.map Prod.fst).filter (fun k => s.pfx.isPrefixOf k) :=
          fun hmem => hpre (List.mem_filter.mp hmem).2
        have hfalse : s.pfx.isPrefixOf p.1 = false := Bool.eq_false_iff.mpr hpre
        simp [hout, hfalse]
  · show (s.scan (s.pfx ++ ['*'])).length = _
    rw [hscan, List.filter_map]
    simp only [List.length_map]
    exact congrArg List.length (List.filter_congr (fun x _ => rfl))

/-- C10 witness at a concrete input: a database holding the namespaced row
"m_a" and the foreign row "x"; Clear removes only the first and Len counts
only the first. -/
theorem C10_redis_clear_scoped_witness :
    (∃ s1, RedisStorage.Clear natKeyCodec redisSample = .ok s1 ∧
      s1.db = redisSample.db.filter (fun p => !(redisSample.pfx.isPrefixOf p.1)) ∧
      s1.pfx = redisSample.pfx) ∧
    RedisStorage.Len redisSample
      = (redisSample.db.filter (fun p => redisSample.pfx.isPrefixOf p.1)).length :=
  C10_redis_clear_scoped natKeyCodec redisSample (by decide) (by decide)
    (by
      intro p hp hpre
      simp only [redisSample, List.mem_cons, List.not_mem_nil, or_false] at hp
      rcases hp with h | h
      · exact ⟨1, by rw [h]; rfl⟩
      · rw [h] at hpre
        exact absurd hpre (by decide))
    (fun k => by simp [natKeyCodec])

end MightyMap
